import Mathlib

/-!
Shallow embedding of `evaluation.py` (top-N recommendation evaluation):
`downvote_seen_items`, `topn_recommendations` / `topidx`, `model_evaluate`.

Modelling conventions:
* Scores are `WithBot ℚ`; the bottom element `⊥` embeds the float `-inf`
  written by `np.put(scores, seen_idx_flat, -np.inf)`.  The claims under
  study only compare scores and test them for equality, so exact rational
  arithmetic is faithful (every concrete value appearing in the claims is
  a small dyadic rational on which float arithmetic is exact).
* A score matrix is a row-major `List (List Score)`; interaction and
  holdout tables are abstracted to the columns the code extracts from
  them (`data[userid].values`, `data[itemid].values`,
  `holdout[itemid].values`), i.e. a `List (Int × Nat)` of (user label,
  item index) pairs resp. a `List Nat`; `data_description` only names
  those columns and supplies `n_items`.
* A numpy exception (`ValueError` from `np.ravel_multi_index` or
  `np.argpartition`) is embedded as `none` / an error flag; the raising
  call happens before any mutation, so the state component returned on
  error is the unchanged input matrix.
* `np.argpartition` leaves the order inside the two partitions undefined
  and `np.argsort`'s default quicksort is not stable, so tie order is not
  specified by the code.  The executable `topidx` below instantiates both
  steps with a stable sort (one admissible behaviour); the relation
  `TopidxSpec` characterises *all* admissible outputs, and
  `topidx_satisfies_spec` shows the executable instantiation is one of
  them.
-/

namespace RecSysEval

/-- Score value: a rational, or `⊥` embedding `-np.inf`. -/
abbrev Score := WithBot ℚ

/-- Value of score vector `a` at index `i` (defaulting to `⊥` out of range;
all uses are in range). -/
def valAt (a : List Score) (i : Nat) : Score := a.getD i ⊥

/-- Rank of label `u` among the distinct labels of `xs` in ascending order.
This is the code `pd.factorize(xs, sort=True)` assigns to `u`. -/
def userRank (xs : List Int) (u : Int) : Nat :=
  (xs.dedup.insertionSort (· ≤ ·)).indexOf u

/-- Embedding of `pd.factorize(xs, sort=True)` (first component): each
element replaced by its rank in the ascending sort of the distinct values. -/
def factorize (xs : List Int) : List Nat := xs.map (userRank xs)

/-- Embedding of `np.ravel_multi_index((uidx, iidx), (U, I))` with the default
`mode=raise`: every multi-index is validated against the shape first
(`none` embeds the `ValueError`), then flattened row-major. -/
def ravel_multi_index (uidx iidx : List Nat) (U I : Nat) : Option (List Nat) :=
  if (uidx.zip iidx).all (fun p => decide (p.1 < U) && decide (p.2 < I)) then
    some ((uidx.zip iidx).map fun p => p.1 * I + p.2)
  else none

/-- Number of columns of a row-major matrix (`scores.shape[1]`). -/
def shape1 (m : List (List Score)) : Nat := (m.headD []).length

/-- Embedding of `np.put(m, flat, v)` on a matrix of `shape1 m` columns:
overwrite the entries whose row-major flat index lies in `flat`. -/
def putFlat (m : List (List Score)) (flat : List Nat) (v : Score) :
    List (List Score) :=
  m.mapIdx fun r row => row.mapIdx fun c x =>
    if r * shape1 m + c ∈ flat then v else x

/-- Entry of a row-major matrix at row `r`, column `c` (defaulting to `⊥`
out of range). -/
def entry (m : List (List Score)) (r c : Nat) : Score := (m.getD r []).getD c ⊥

/-- Embedding of `downvote_seen_items(scores, data, data_description)`.
Returns the resulting matrix together with a success flag: `false` embeds
the `ValueError` raised by `np.ravel_multi_index` when some
(factorised user, item) pair is out of bounds for `scores.shape`; the
exception is raised before `np.put` runs, so in that case the matrix
component is the untouched input. -/
def downvote_seen_items (scores : List (List Score)) (data : List (Int × Nat)) :
    List (List Score) × Bool :=
  match ravel_multi_index (factorize (data.map Prod.fst)) (data.map Prod.snd)
      scores.length (shape1 scores) with
  | some seen_idx_flat => (putFlat scores seen_idx_flat ⊥, true)
  | none => (scores, false)

/-- Python one-sided slice `l[s:]` with a possibly negative start. -/
def pySliceFrom {α : Type} (l : List α) (s : Int) : List α :=
  let len : Int := l.length
  let start := if s < 0 then max 0 (len + s) else min s len
  l.drop start.toNat

/-- Stable full ascending argsort of a score vector: the deterministic
instantiation chosen for `np.argpartition(a, kth)` (any fully ascending
permutation is a valid partition at every `kth`). -/
def argsortAsc (a : List Score) : List Nat :=
  (List.range a.length).insertionSort fun i j => valAt a i ≤ valAt a j

/-- Embedding of `topidx(a, topn)`:
`np.argpartition(a, -topn)[-topn:]` then `parted[np.argsort(-a[parted])]`.
`none` embeds the `ValueError` raised by `np.argpartition` when the kth
index `-topn` is out of bounds for an axis of length `a.length`
(valid kth range: `-len ≤ kth ≤ len - 1`, i.e. `1 - len ≤ topn ≤ len`).
Both sort steps are instantiated with a stable sort; numpy leaves the tie
order unspecified (see `TopidxSpec`). -/
def topidx (a : List Score) (topn : Int) : Option (List Nat) :=
  let I : Int := a.length
  if 1 - I ≤ topn ∧ topn ≤ I then
    let parted := pySliceFrom (argsortAsc a) (-topn)
    some (parted.insertionSort fun i j => valAt a j ≤ valAt a i)
  else none

/-- Embedding of `topn_recommendations(scores, topn)`:
`np.apply_along_axis(topidx, 1, scores, topn)`; a `ValueError` in any row
aborts the whole call (`none`). -/
def topn_recommendations (scores : List (List Score)) (topn : Int := 10) :
    Option (List (List Nat)) :=
  scores.mapM fun row => topidx row topn

/-- Contract of `np.argpartition(a, k)` on an index permutation `p`: the
element at position `k` is in its sorted position (everything before it is
`≤` it, everything after it is `≥` it); the order *within* the two
partitions is undefined. -/
def PartitionAt (a : List Score) (k : Nat) (p : List Nat) : Prop :=
  (∀ i, i < k → valAt a (p.getD i 0) ≤ valAt a (p.getD k 0)) ∧
  (∀ j, k < j → j < p.length → valAt a (p.getD k 0) ≤ valAt a (p.getD j 0))

/-- Admissible outputs of `topidx(a, topn)` for `1 ≤ topn ≤ a.length`, per
the numpy contracts: some partition permutation `p` at
`kth = a.length - topn`, its last `topn` entries, reordered into
non-increasing score order (tie order in both `np.argpartition` and the
default `np.argsort` is unspecified, hence the permutation quantifier). -/
def TopidxSpec (a : List Score) (topn : Nat) (r : List Nat) : Prop :=
  ∃ p : List Nat, p.Perm (List.range a.length) ∧
    PartitionAt a (a.length - topn) p ∧
    r.Perm (p.drop (a.length - topn)) ∧
    r.Sorted fun i j => valAt a j ≤ valAt a i

instance instTotalValAtAsc (a : List Score) :
    IsTotal Nat fun i j => valAt a i ≤ valAt a j :=
  ⟨fun _ _ => le_total _ _⟩

instance instTransValAtAsc (a : List Score) :
    IsTrans Nat fun i j => valAt a i ≤ valAt a j :=
  ⟨fun _ _ _ h h2 => le_trans h h2⟩

instance instTotalValAtDesc (a : List Score) :
    IsTotal Nat fun i j => valAt a j ≤ valAt a i :=
  ⟨fun _ _ => le_total _ _⟩

instance instTransValAtDesc (a : List Score) :
    IsTrans Nat fun i j => valAt a j ≤ valAt a i :=
  ⟨fun _ _ _ h h2 => le_trans h2 h⟩

instance instTotalScoreDesc : IsTotal Score fun x y => y ≤ x :=
  ⟨fun _ _ => le_total _ _⟩

instance instTransScoreDesc : IsTrans Score fun x y => y ≤ x :=
  ⟨fun _ _ _ h h2 => le_trans h2 h⟩

instance instAntisymmScoreDesc : IsAntisymm Score fun x y => y ≤ x :=
  ⟨fun _ _ h h2 => le_antisymm h2 h⟩

/-- Sum of reciprocal 1-based ranks of the `true` positions of a hit-mask
row, the row starting at 0-based position `k`.  This is the per-row share
of `np.sum(1 / hit_rank)` with `hit_rank = np.where(hits_mask)[1] + 1`. -/
def recipRankSum : List Bool → Nat → ℚ
  | [], _ => 0
  | b :: rest, k => (if b then (1 : ℚ) / (k + 1) else 0) + recipRankSum rest (k + 1)

/-- Embedding of `hits_mask = recommended_items[:, :topn] == holdout_items.reshape(-1, 1)`:
row `u` compares the first `topn` recommendations of user `u` with that
user's single holdout item. -/
def evalMasks (recommended_items : List (List Nat)) (holdout_items : List Nat)
    (topn : Nat) : List (List Bool) :=
  (recommended_items.zip holdout_items).map fun p =>
    (p.1.take topn).map fun x => decide (x = p.2)

/-- Embedding of `model_evaluate(recommended_items, holdout, holdout_description, topn)`.
`none` embeds the `AssertionError` when the row count of the
recommendation matrix differs from the number of holdout records.
Otherwise returns `(hr, mrr, cov)`:
`hr = np.mean(hits_mask.any(axis=1))`,
`mrr = np.sum(1 / hit_rank) / n_test_users`, and
`cov = np.unique(recommended_items).size / n_items` (distinct entries of
the *full* matrix, all columns). -/
def model_evaluate (recommended_items : List (List Nat)) (holdout_items : List Nat)
    (n_items : Nat) (topn : Nat := 10) : Option (ℚ × ℚ × ℚ) :=
  if recommended_items.length = holdout_items.length then
    some ((((evalMasks recommended_items holdout_items topn).filter
              (fun m => m.any id)).length : ℚ) / (recommended_items.length : ℚ),
          ((evalMasks recommended_items holdout_items topn).map
              (fun m => recipRankSum m 0)).sum / (recommended_items.length : ℚ),
          ((recommended_items.flatten).dedup.length : ℚ) / (n_items : ℚ))
  else none

/-- Concrete 2-by-2 score matrix used as a test fixture. -/
def exScores : List (List Score) :=
  [[((1 : ℚ) : Score), ((2 : ℚ) : Score)], [((3 : ℚ) : Score), ((4 : ℚ) : Score)]]

/-- Concrete in-bounds interaction table fixture: user label 7, item 1. -/
def exData : List (Int × Nat) := [((7 : Int), 1)]

/-- Concrete out-of-bounds interaction table fixture: item 3 exceeds the
two columns of `exScores`. -/
def exData2 : List (Int × Nat) := [((5 : Int), 3)]

/-- Concrete score row fixture with distinct values. -/
def exRow : List Score := [((1 : ℚ) : Score), ((2 : ℚ) : Score)]

/-- Mapping `valAt a` over the index range recovers the score vector. -/
lemma map_valAt_range (a : List Score) : (List.range a.length).map (valAt a) = a := by
  apply List.ext_getElem
  · simp
  · intro i h1 h2
    rw [List.getElem_map, List.getElem_range]
    exact List.getD_eq_getElem a ⊥ h2

/-- The ascending argsort is a permutation of the index range. -/
lemma argsortAsc_perm (a : List Score) : (argsortAsc a).Perm (List.range a.length) :=
  List.perm_insertionSort _ _

/-- The ascending argsort has one entry per column. -/
lemma argsortAsc_length (a : List Score) : (argsortAsc a).length = a.length := by
  rw [(argsortAsc_perm a).length_eq, List.length_range]

/-- The ascending argsort is sorted by ascending score. -/
lemma argsortAsc_sorted (a : List Score) :
    (argsortAsc a).Sorted fun i j => valAt a i ≤ valAt a j :=
  List.sorted_insertionSort _ _

/-- Computed form of `topidx` in the standard regime `1 ≤ topn ≤ a.length`:
keep the last `topn` entries of the (instantiated) argpartition and sort
them by descending score. -/
lemma topidx_eq (a : List Score) (n : Nat) (h1 : 1 ≤ n) (h2 : n ≤ a.length) :
    topidx a (n : Int) = some (((argsortAsc a).drop (a.length - n)).insertionSort
      fun i j => valAt a j ≤ valAt a i) := by
  simp only [topidx, pySliceFrom, argsortAsc_length]
  rw [if_pos (⟨by omega, by omega⟩ : 1 - (a.length : Int) ≤ (n : Int) ∧
    (n : Int) ≤ (a.length : Int))]
  rw [if_pos (by omega : -(n : Int) < 0)]
  have hstart : (max 0 ((a.length : Int) + -(n : Int))).toNat = a.length - n := by omega
  rw [hstart]

/-- The executable `topidx` is one of the admissible behaviours described
by `TopidxSpec`. -/
lemma topidx_satisfies_spec (a : List Score) (n : Nat) (r : List Nat)
    (h1 : 1 ≤ n) (h2 : n ≤ a.length) (h : topidx a (n : Int) = some r) :
    TopidxSpec a n r := by
  rw [topidx_eq a n h1 h2] at h
  have hr := Option.some.inj h
  subst hr
  refine ⟨argsortAsc a, argsortAsc_perm a, ?_, List.perm_insertionSort _ _,
    List.sorted_insertionSort _ _⟩
  have hs := argsortAsc_sorted a
  have hlen := argsortAsc_length a
  have hk : a.length - n < (argsortAsc a).length := by omega
  have hget : ∀ i j (hi : i < (argsortAsc a).length) (hj : j < (argsortAsc a).length),
      i < j → valAt a ((argsortAsc a)[i]) ≤ valAt a ((argsortAsc a)[j]) := by
    intro i j hi hj hij
    exact List.pairwise_iff_getElem.mp hs i j hi hj hij
  constructor
  · intro i hi
    rw [List.getD_eq_getElem _ _ (by omega : i < (argsortAsc a).length),
      List.getD_eq_getElem _ _ hk]
    exact hget i (a.length - n) (by omega) hk hi
  · intro j hj hjl
    rw [List.getD_eq_getElem _ _ (by omega : j < (argsortAsc a).length),
      List.getD_eq_getElem _ _ hk]
    exact hget (a.length - n) j hk (by omega) hj

/-- Option-valued `mapM` succeeds exactly componentwise. -/
lemma mapM_option_eq_some {α β : Type} (f : α → Option β) :
    ∀ (l : List α) (R : List β), l.mapM f = some R →
      R.length = l.length ∧ ∀ p ∈ l.zip R, f p.1 = some p.2 := by
  intro l
  induction l with
  | nil =>
    intro R h
    rw [List.mapM_nil] at h
    obtain rfl := (Option.some.inj h).symm
    simp
  | cons x xs ih =>
    intro R h
    rw [List.mapM_cons] at h
    cases hfx : f x with
    | none => rw [hfx] at h; simp at h
    | some y =>
      rw [hfx] at h
      cases hm : xs.mapM f with
      | none => rw [hm] at h; simp at h
      | some ys =>
        rw [hm] at h
        simp only [Option.bind_eq_bind, Option.some_bind, Option.some.injEq,
          pure] at h
        obtain rfl := h.symm
        obtain ⟨hl, hz⟩ := ih ys hm
        refine ⟨by simp [hl], ?_⟩
        intro p hp
        rw [List.zip_cons_cons] at hp
        rcases List.mem_cons.mp hp with hp | hp
        · rw [hp]; exact hfx
        · exact hz p hp

/-- Every row of a successful `topn_recommendations` call is an admissible
`topidx` output for the corresponding score row. -/
lemma topn_recommendations_spec (scores : List (List Score)) (n : Nat)
    (R : List (List Nat)) (h1 : 1 ≤ n) (h2 : ∀ row ∈ scores, n ≤ row.length)
    (hR : topn_recommendations scores (n : Int) = some R) :
    R.length = scores.length ∧ ∀ p ∈ scores.zip R, TopidxSpec p.1 n p.2 := by
  unfold topn_recommendations at hR
  obtain ⟨hl, hz⟩ := mapM_option_eq_some _ _ _ hR
  refine ⟨hl, ?_⟩
  intro p hp
  exact topidx_satisfies_spec p.1 n p.2 h1 (h2 p.1 (List.of_mem_zip hp).1) (hz p hp)

/-- Core consequences of `TopidxSpec`: any admissible output consists of `n`
distinct in-range indices whose score values are, up to permutation, the
first `n` values of a full descending sort of the row. -/
lemma topidxSpec_main (a : List Score) (n : Nat) (r : List Nat)
    (h1 : 1 ≤ n) (h2 : n ≤ a.length) (h : TopidxSpec a n r) :
    r.length = n ∧ (∀ i ∈ r, i < a.length) ∧ r.Nodup ∧
      (r.map (valAt a)).Perm ((a.insertionSort fun x y => y ≤ x).take n) := by
  obtain ⟨p, hperm, hpart, hdrop, hsort⟩ := h
  have hpl : p.length = a.length := by rw [hperm.length_eq, List.length_range]
  have hk : a.length - n < p.length := by omega
  have hlen : r.length = n := by
    rw [hdrop.length_eq, List.length_drop, hpl]
    omega
  have hmem : ∀ i ∈ r, i < a.length := by
    intro i hi
    have hip : i ∈ p := List.mem_of_mem_drop (hdrop.mem_iff.mp hi)
    exact List.mem_range.mp (hperm.mem_iff.mp hip)
  have hnd : r.Nodup := by
    have hpnd : p.Nodup := hperm.nodup_iff.mpr (List.nodup_range _)
    exact hdrop.nodup_iff.mpr (hpnd.sublist (List.drop_sublist _ _))
  refine ⟨hlen, hmem, hnd, ?_⟩
  have hvalTD : ∀ x ∈ (p.take (a.length - n)).map (valAt a),
      ∀ y ∈ (p.drop (a.length - n)).map (valAt a), x ≤ y := by
    intro x hx y hy
    obtain ⟨ix, hix, rfl⟩ := List.mem_map.mp hx
    obtain ⟨iy, hiy, rfl⟩ := List.mem_map.mp hy
    obtain ⟨i, hi, rfl⟩ := List.mem_iff_getElem.mp hix
    obtain ⟨j, hj, rfl⟩ := List.mem_iff_getElem.mp hiy
    have hi2 : i < a.length - n := by
      have h3 := hi
      rw [List.length_take] at h3
      omega
    have hj2 : (a.length - n) + j < p.length := by
      have h3 := hj
      rw [List.length_drop] at h3
      omega
    rw [List.getElem_take, List.getElem_drop]
    have hpart1 := hpart.1 i hi2
    rw [List.getD_eq_getElem _ _ (by omega : i < p.length),
      List.getD_eq_getElem _ _ hk] at hpart1
    rcases Nat.eq_zero_or_pos j with hj0 | hj0
    · subst hj0
      simpa using hpart1
    · have hpart2 := hpart.2 ((a.length - n) + j) (by omega) hj2
      rw [List.getD_eq_getElem _ _ hj2, List.getD_eq_getElem _ _ hk] at hpart2
      exact le_trans hpart1 hpart2
  have hDlen : (((p.drop (a.length - n)).map (valAt a)).insertionSort
      fun x y => y ≤ x).length = n := by
    rw [List.length_insertionSort, List.length_map, List.length_drop, hpl]
    omega
  have hsplit : ((((p.drop (a.length - n)).map (valAt a)).insertionSort
        fun x y => y ≤ x) ++
      (((p.take (a.length - n)).map (valAt a)).insertionSort fun x y => y ≤ x)) =
      a.insertionSort fun x y => y ≤ x := by
    have q1 : ((((p.drop (a.length - n)).map (valAt a)).insertionSort
          fun x y => y ≤ x) ++
        (((p.take (a.length - n)).map (valAt a)).insertionSort
          fun x y => y ≤ x)).Perm
        ((p.drop (a.length - n)).map (valAt a) ++
          (p.take (a.length - n)).map (valAt a)) :=
      List.Perm.append (List.perm_insertionSort _ _) (List.perm_insertionSort _ _)
    have q2 : ((p.drop (a.length - n)).map (valAt a) ++
        (p.take (a.length - n)).map (valAt a)).Perm
        ((p.take (a.length - n)).map (valAt a) ++
          (p.drop (a.length - n)).map (valAt a)) :=
      List.perm_append_comm
    have q3 : (p.take (a.length - n)).map (valAt a) ++
        (p.drop (a.length - n)).map (valAt a) = p.map (valAt a) := by
      rw [← List.map_append, List.take_append_drop]
    have q4 : (p.map (valAt a)).Perm a := by
      have h5 := hperm.map (valAt a)
      rw [map_valAt_range] at h5
      exact h5
    have q5 : a.Perm (a.insertionSort fun x y => y ≤ x) :=
      (List.perm_insertionSort _ _).symm
    refine List.eq_of_perm_of_sorted (q1.trans (q2.trans (q3 ▸ (q4.trans q5)))) ?_
      (List.sorted_insertionSort _ _)
    refine List.pairwise_append.mpr ⟨List.sorted_insertionSort _ _,
      List.sorted_insertionSort _ _, ?_⟩
    intro x hx y hy
    exact hvalTD y ((List.mem_insertionSort _).mp hy)
      x ((List.mem_insertionSort _).mp hx)
  have htake : (a.insertionSort fun x y => y ≤ x).take n =
      ((p.drop (a.length - n)).map (valAt a)).insertionSort fun x y => y ≤ x := by
    rw [← hsplit]
    exact List.take_left' hDlen
  rw [htake]
  exact (hdrop.map _).trans (List.perm_insertionSort _ _).symm

/-- C3: top-N exhaustiveness.  For every score row and every `n` with
`1 ≤ n ≤` the number of columns, any admissible `topidx` output (hence in
particular each row produced by `topn_recommendations`, by
`topn_recommendations_spec`) is a duplicate-free list of exactly `n`
column indices attaining the `n` highest scores of the row: its multiset
of score values equals the first `n` entries of a full descending sort of
the row. -/
theorem recsys_C3 (a : List Score) (n : Nat) (r : List Nat)
    (h1 : 1 ≤ n) (h2 : n ≤ a.length) (h : TopidxSpec a n r) :
    r.Nodup ∧ r.length = n ∧
      (r.map (valAt a)).Perm ((a.insertionSort fun x y => y ≤ x).take n) := by
  obtain ⟨hl, -, hnd, hv⟩ := topidxSpec_main a n r h1 h2 h
  exact ⟨hnd, hl, hv⟩

/-- C4: top-N cardinality and order.  For every score row and every `n`
with `1 ≤ n ≤` the number of columns, any admissible `topidx` output
(hence each row produced by `topn_recommendations`, by
`topn_recommendations_spec`) contains exactly `n` column indices, each
within range, with non-increasing scores left to right. -/
theorem recsys_C4 (a : List Score) (n : Nat) (r : List Nat)
    (h1 : 1 ≤ n) (h2 : n ≤ a.length) (h : TopidxSpec a n r) :
    r.length = n ∧ (∀ i ∈ r, i < a.length) ∧
      r.Sorted fun i j => valAt a j ≤ valAt a i := by
  obtain ⟨hl, hm, -, -⟩ := topidxSpec_main a n r h1 h2 h
  obtain ⟨p, -, -, -, hs⟩ := h
  exact ⟨hl, hm, hs⟩

/-- C5 (amended): the relative order of equal-score selected items is not
specified by the code (`np.argpartition` leaves the order within
partitions undefined and the default `np.argsort` quicksort is not
stable), so equal-score items may appear in either order; what is
determined is the sequence of score values: any two admissible outputs
have identical score-value sequences. -/
theorem recsys_C5 (a : List Score) (n : Nat) (r₁ r₂ : List Nat)
    (h1 : 1 ≤ n) (h2 : n ≤ a.length)
    (s1 : TopidxSpec a n r₁) (s2 : TopidxSpec a n r₂) :
    r₁.map (valAt a) = r₂.map (valAt a) := by
  have m1 := (topidxSpec_main a n r₁ h1 h2 s1).2.2.2
  have m2 := (topidxSpec_main a n r₂ h1 h2 s2).2.2.2
  have hpm : (r₁.map (valAt a)).Perm (r₂.map (valAt a)) := m1.trans m2.symm
  have hs1 : (r₁.map (valAt a)).Sorted fun x y => y ≤ x := by
    obtain ⟨p, -, -, -, hs⟩ := s1
    exact List.Pairwise.map _ (fun _ _ hab => hab) hs
  have hs2 : (r₂.map (valAt a)).Sorted fun x y => y ≤ x := by
    obtain ⟨p, -, -, -, hs⟩ := s2
    exact List.Pairwise.map _ (fun _ _ hab => hab) hs
  exact List.eq_of_perm_of_sorted hpm hs1 hs2

/-- C5 counterexample: on the row `[1, 1]` with `n = 2`, the output
`[1, 0]` is admissible for the code (numpy does not specify the tie
order), yet columns `0 < 1` have equal scores and `0` appears after `1`:
the claimed index-stable tie order is not guaranteed. -/
theorem recsys_C5_counterexample :
    TopidxSpec [((1 : ℚ) : Score), ((1 : ℚ) : Score)] 2 [1, 0] ∧
    ¬ (∀ i j : Nat, i ∈ ([1, 0] : List Nat) → j ∈ ([1, 0] : List Nat) → i < j →
        valAt [((1 : ℚ) : Score), ((1 : ℚ) : Score)] i =
          valAt [((1 : ℚ) : Score), ((1 : ℚ) : Score)] j →
        ([1, 0] : List Nat).indexOf i < ([1, 0] : List Nat).indexOf j) := by
  constructor
  · refine ⟨[0, 1], by decide, ⟨?_, ?_⟩, by decide, ?_⟩
    · intro i hi
      exact absurd hi (Nat.not_lt_zero i)
    · intro j hj hjl
      have hj1 : j = 1 := by
        simp only [List.length_cons, List.length_nil] at hjl
        omega
      subst hj1
      simp [valAt]
    · refine List.pairwise_cons.mpr ⟨?_, List.pairwise_singleton _ _⟩
      intro b hb
      rw [List.mem_singleton] at hb
      subst hb
      simp [valAt]
  · intro hcl
    have h5 := hcl 0 1 (by decide) (by decide) (by decide) (by simp [valAt])
    exact absurd h5 (by decide)

/-- C6 (amended): degenerate `topn` handling of the selector.  For a row
of length `I ≥ 1`: every `n` with `1 - I ≤ n ≤ I` is accepted without
raising (this includes `n = 0` and moderately negative `n`); at `n = I`
the selector returns all `I` items sorted by descending score; but
`n > I` raises a `ValueError` in `np.argpartition` (kth index `-n` out of
bounds, embedded as `none`) rather than degenerating gracefully. -/
theorem recsys_C6 (a : List Score) (n : Int) (hI : 1 ≤ a.length) :
    ((1 - (a.length : Int) ≤ n ∧ n ≤ (a.length : Int)) → (topidx a n).isSome) ∧
    (∀ r, topidx a (a.length : Int) = some r →
      r.Perm (List.range a.length) ∧ r.Sorted fun i j => valAt a j ≤ valAt a i) ∧
    ((a.length : Int) < n → topidx a n = none) := by
  refine ⟨?_, ?_, ?_⟩
  · intro hc
    simp only [topidx]
    rw [if_pos hc]
    rfl
  · intro r hr
    rw [topidx_eq a a.length hI (le_refl _)] at hr
    rw [Nat.sub_self, List.drop_zero] at hr
    obtain rfl := (Option.some.inj hr).symm
    exact ⟨(List.perm_insertionSort _ _).trans (argsortAsc_perm a),
      List.sorted_insertionSort _ _⟩
  · intro hn
    simp only [topidx]
    rw [if_neg (by omega : ¬ (1 - (a.length : Int) ≤ n ∧ n ≤ (a.length : Int)))]

/-- C6 counterexample: a row of `I = 2` items with `n = 3 ≥ I` raises
(`np.argpartition` kth index `-3` is out of bounds for axis length 2,
embedded as `none`), refuting the claim that `n ≥ I` never raises. -/
theorem recsys_C6_counterexample :
    topidx [((1/2 : ℚ) : Score), ((7/10 : ℚ) : Score)] 3 = none := by
  rfl

/-- Row-major flat indices are injective on in-range columns. -/
lemma flat_index_inj {r q c i I : Nat} (hc : c < I) (hi : i < I)
    (h : r * I + c = q * I + i) : r = q ∧ c = i := by
  have hI : 0 < I := lt_of_le_of_lt (Nat.zero_le _) hc
  have e1 : (r * I + c) / I = r := by
    rw [Nat.add_comm, Nat.add_mul_div_right _ _ hI, Nat.div_eq_of_lt hc, Nat.zero_add]
  have e2 : (q * I + i) / I = q := by
    rw [Nat.add_comm, Nat.add_mul_div_right _ _ hI, Nat.div_eq_of_lt hi, Nat.zero_add]
  have hrq : r = q := by rw [← e1, ← e2, h]
  subst hrq
  exact ⟨rfl, Nat.add_left_cancel h⟩

/-- The zipped (factorised user, item) pairs are the interaction pairs with
the user replaced by its rank. -/
lemma zip_factorize (data : List (Int × Nat)) :
    (factorize (data.map Prod.fst)).zip (data.map Prod.snd) =
      data.map fun p => (userRank (data.map Prod.fst) p.1, p.2) := by
  unfold factorize
  rw [List.map_map, List.zip_map']
  rfl

/-- Indexing commutes with `mapIdx`. -/
lemma getElem_mapIdx {α β : Type} (l : List α) (f : Nat → α → β) (i : Nat)
    (h : i < l.length) (h2 : i < (l.mapIdx f).length) :
    (l.mapIdx f)[i] = f i l[i] := by
  have := List.get_mapIdx l f i h
  simp only [List.get_eq_getElem] at this
  exact this

/-- Entry of `putFlat` at an in-range position: overwritten exactly when the
flat index of the position occurs in `flat`. -/
lemma entry_putFlat (m : List (List Score)) (flat : List Nat) (v : Score)
    (r c : Nat) (hr : r < m.length) (hc : c < (m.getD r []).length) :
    entry (putFlat m flat v) r c =
      if r * shape1 m + c ∈ flat then v else entry m r c := by
  have hr2 : r < (m.mapIdx fun r row => row.mapIdx fun c x =>
      if r * shape1 m + c ∈ flat then v else x).length := by
    simpa [List.length_mapIdx] using hr
  have hrow : (m.mapIdx fun r row => row.mapIdx fun c x =>
        if r * shape1 m + c ∈ flat then v else x).getD r [] =
      (m.getD r []).mapIdx fun c x => if r * shape1 m + c ∈ flat then v else x := by
    rw [List.getD_eq_getElem _ _ hr2, List.getD_eq_getElem _ _ hr]
    exact getElem_mapIdx _ _ _ hr hr2
  unfold entry putFlat
  rw [hrow]
  have hc2 : c < ((m.getD r []).mapIdx fun c x =>
      if r * shape1 m + c ∈ flat then v else x).length := by
    simpa [List.length_mapIdx] using hc
  rw [List.getD_eq_getElem _ _ hc2, getElem_mapIdx _ _ _ hc hc2,
    List.getD_eq_getElem _ _ hc]

/-- C2: suppression correctness with frame condition.  Under the data-model
invariants (rectangular score matrix; all normalised pairs in bounds),
`downvote_seen_items` succeeds, every interaction pair
(rank of the user identifier in the ascending sort of distinct user
identifiers, item index) is set to `⊥` (the embedded `-inf`), and every
entry not addressed by some pair is unchanged. -/
theorem recsys_C2 (scores : List (List Score)) (data : List (Int × Nat))
    (hrect : ∀ row ∈ scores, row.length = shape1 scores)
    (hbound : ∀ p ∈ data,
      userRank (data.map Prod.fst) p.1 < scores.length ∧ p.2 < shape1 scores) :
    (downvote_seen_items scores data).2 = true ∧
    (∀ p ∈ data, entry (downvote_seen_items scores data).1
        (userRank (data.map Prod.fst) p.1) p.2 = ⊥) ∧
    (∀ r c, (¬ ∃ p ∈ data, userRank (data.map Prod.fst) p.1 = r ∧ p.2 = c) →
      entry (downvote_seen_items scores data).1 r c = entry scores r c) := by
  have hall : ((data.map fun p => (userRank (data.map Prod.fst) p.1, p.2)).all
      (fun p => decide (p.1 < scores.length) && decide (p.2 < shape1 scores))) = true := by
    rw [List.all_eq_true]
    intro x hx
    obtain ⟨p, hp, rfl⟩ := List.mem_map.mp hx
    obtain ⟨h1, h2⟩ := hbound p hp
    simp [h1, h2]
  have hsome : ravel_multi_index (factorize (data.map Prod.fst)) (data.map Prod.snd)
      scores.length (shape1 scores) =
      some ((data.map fun p => (userRank (data.map Prod.fst) p.1, p.2)).map fun p =>
        p.1 * shape1 scores + p.2) := by
    unfold ravel_multi_index
    rw [zip_factorize, if_pos hall]
  have hdown : downvote_seen_items scores data =
      (putFlat scores ((data.map fun p =>
        (userRank (data.map Prod.fst) p.1, p.2)).map fun p =>
          p.1 * shape1 scores + p.2) ⊥, true) := by
    unfold downvote_seen_items
    rw [hsome]
  rw [hdown]
  refine ⟨rfl, ?_, ?_⟩
  · intro p hp
    have hb := hbound p hp
    have hrow : (scores.getD (userRank (data.map Prod.fst) p.1) []).length =
        shape1 scores := by
      rw [List.getD_eq_getElem _ _ hb.1]
      exact hrect _ (List.getElem_mem _)
    rw [entry_putFlat _ _ _ _ _ hb.1 (by rw [hrow]; exact hb.2)]
    rw [if_pos]
    rw [List.map_map]
    exact List.mem_map_of_mem _ hp
  · intro r c hna
    rcases Nat.lt_or_ge r scores.length with hr | hr
    · have hrow : (scores.getD r []).length = shape1 scores := by
        rw [List.getD_eq_getElem _ _ hr]
        exact hrect _ (List.getElem_mem _)
      rcases Nat.lt_or_ge c (shape1 scores) with hc | hc
      · rw [entry_putFlat _ _ _ _ _ hr (by rw [hrow]; exact hc)]
        rw [if_neg]
        intro hmem
        rw [List.map_map] at hmem
        obtain ⟨p, hp, hpe⟩ := List.mem_map.mp hmem
        obtain ⟨h1, h2⟩ := flat_index_inj (hbound p hp).2 hc hpe
        exact hna ⟨p, hp, h1, h2⟩
      · have hclen : (scores.getD r []).length ≤ c := by rw [hrow]; exact hc
        have h1 : entry (putFlat scores ((data.map fun p =>
            (userRank (data.map Prod.fst) p.1, p.2)).map fun p =>
              p.1 * shape1 scores + p.2) ⊥) r c = ⊥ := by
          unfold entry
          refine List.getD_eq_default _ _ ?_
          have hrowlen : ((putFlat scores ((data.map fun p =>
              (userRank (data.map Prod.fst) p.1, p.2)).map fun p =>
                p.1 * shape1 scores + p.2) ⊥).getD r []).length =
              (scores.getD r []).length := by
            have hr2 : r < (putFlat scores ((data.map fun p =>
                (userRank (data.map Prod.fst) p.1, p.2)).map fun p =>
                  p.1 * shape1 scores + p.2) ⊥).length := by
              simpa [putFlat, List.length_mapIdx] using hr
            rw [List.getD_eq_getElem _ _ hr2, List.getD_eq_getElem _ _ hr]
            unfold putFlat
            rw [getElem_mapIdx _ _ _ hr (by simpa [List.length_mapIdx] using hr)]
            exact List.length_mapIdx
          rw [hrowlen]
          exact hclen
        have h2 : entry scores r c = ⊥ := by
          unfold entry
          exact List.getD_eq_default _ _ hclen
        rw [h1, h2]
    · have h1 : entry (putFlat scores ((data.map fun p =>
          (userRank (data.map Prod.fst) p.1, p.2)).map fun p =>
            p.1 * shape1 scores + p.2) ⊥) r c = ⊥ := by
        unfold entry
        have : (putFlat scores ((data.map fun p =>
            (userRank (data.map Prod.fst) p.1, p.2)).map fun p =>
              p.1 * shape1 scores + p.2) ⊥).getD r [] = [] := by
          refine List.getD_eq_default _ _ ?_
          simpa [putFlat, List.length_mapIdx] using hr
        rw [this]
        rfl
      have h2 : entry scores r c = ⊥ := by
        unfold entry
        rw [List.getD_eq_default _ _ hr]
        rfl
      rw [h1, h2]

/-- C10: suppression atomicity on a bounds error.  If some (normalised
user row, item column) pair lies outside the score matrix bounds,
`np.ravel_multi_index` raises while validating the pairs, before `np.put`
writes anything, so `downvote_seen_items` returns the score matrix
entirely unchanged together with the error flag. -/
theorem recsys_C10 (scores : List (List Score)) (data : List (Int × Nat))
    (hbad : ∃ p ∈ data, scores.length ≤ userRank (data.map Prod.fst) p.1 ∨
      shape1 scores ≤ p.2) :
    downvote_seen_items scores data = (scores, false) := by
  have hnone : ravel_multi_index (factorize (data.map Prod.fst)) (data.map Prod.snd)
      scores.length (shape1 scores) = none := by
    unfold ravel_multi_index
    rw [if_neg]
    intro hall
    rw [zip_factorize, List.all_eq_true] at hall
    obtain ⟨p, hp, hbadp⟩ := hbad
    have := hall _ (List.mem_map_of_mem _ hp)
    simp only [Bool.and_eq_true, decide_eq_true_eq] at this
    rcases hbadp with hb | hb
    · exact absurd this.1 (by omega)
    · exact absurd this.2 (by omega)
  unfold downvote_seen_items
  rw [hnone]

/-- Per-row reciprocal-rank sums are nonnegative. -/
lemma recipRankSum_nonneg (m : List Bool) (k : Nat) : 0 ≤ recipRankSum m k := by
  induction m generalizing k with
  | nil => simp [recipRankSum]
  | cons b rest ih =>
    refine add_nonneg ?_ (ih (k + 1))
    split
    · positivity
    · exact le_refl 0

/-- A mask with no `true` contributes nothing to the reciprocal-rank sum. -/
lemma recipRankSum_eq_zero (m : List Bool) (k : Nat) (h : m.count true = 0) :
    recipRankSum m k = 0 := by
  induction m generalizing k with
  | nil => simp [recipRankSum]
  | cons b rest ih =>
    cases b
    · have h0 : rest.count true = 0 := by simpa [List.count_cons] using h
      simp [recipRankSum, ih (k + 1) h0]
    · simp [List.count_cons] at h

/-- A mask with at most one `true` contributes at most its any-hit indicator. -/
lemma recipRankSum_le_indicator (m : List Bool) (k : Nat) (h : m.count true ≤ 1) :
    recipRankSum m k ≤ if m.any id then 1 else 0 := by
  induction m generalizing k with
  | nil => simp [recipRankSum]
  | cons b rest ih =>
    cases b
    · have hrest : rest.count true ≤ 1 := by
        simpa [List.count_cons] using h
      simpa [recipRankSum, List.any_cons] using ih (k + 1) hrest
    · have hrest : rest.count true = 0 := by
        simp [List.count_cons] at h
        omega
      rw [recipRankSum, recipRankSum_eq_zero rest (k + 1) hrest]
      have hk : (1 : ℚ) / (k + 1) ≤ 1 := by
        rw [div_le_one (by positivity)]
        have : (0 : ℚ) ≤ k := Nat.cast_nonneg k
        linarith
      simpa [List.any_cons] using hk

/-- Counting `true` in an equality mask counts the matches. -/
lemma count_true_map_eq (l : List Nat) (h : Nat) :
    ((l.map fun x => decide (x = h)).count true) = l.count h := by
  induction l with
  | nil => simp
  | cons x xs ih =>
    by_cases hx : x = h
    · simp [List.count_cons, hx, ih]
    · simp [List.count_cons, hx, ih]

/-- Length of the any-hit filter as a sum of indicators. -/
lemma filter_any_length_eq_sum (masks : List (List Bool)) :
    (((masks.filter fun m => m.any id).length : ℚ)) =
      (masks.map fun m => if m.any id then (1 : ℚ) else 0).sum := by
  induction masks with
  | nil => simp
  | cons m ms ih =>
    by_cases h : m.any id
    · rw [List.filter_cons, if_pos (by simpa using h), List.map_cons, List.sum_cons,
        if_pos h, List.length_cons]
      push_cast
      rw [ih]
      ring
    · rw [List.filter_cons, if_neg (by simpa using h), List.map_cons, List.sum_cons,
        if_neg h, ih]
      ring

/-- C1: end-to-end scenario.  For the 2-user, 4-item score matrix
`[[0.1,0.9,0.3,0.2],[0.4,0.2,0.8,0.1]]` with no seen items,
`topn_recommendations(scores, 2)` returns exactly `[[1,2],[2,0]]`, and
`model_evaluate` of that result against holdout truth `[1, 0]` with
`n_items = 4` and `topn = 2` returns `hr = 1.0`, `mrr = 0.75` and
`coverage = 0.75`. -/
theorem recsys_C1 :
    topn_recommendations
      [[((1/10 : ℚ) : Score), ((9/10 : ℚ) : Score), ((3/10 : ℚ) : Score), ((2/10 : ℚ) : Score)],
       [((4/10 : ℚ) : Score), ((2/10 : ℚ) : Score), ((8/10 : ℚ) : Score), ((1/10 : ℚ) : Score)]] 2 =
      some [[1, 2], [2, 0]] ∧
    model_evaluate [[1, 2], [2, 0]] [1, 0] 4 2 = some (1, 3/4, 3/4) := by
  constructor
  · norm_num [topn_recommendations, List.mapM, List.mapM.loop, topidx, pySliceFrom,
      argsortAsc, List.insertionSort, List.orderedInsert, valAt, List.range_succ]
  · norm_num [model_evaluate, evalMasks, recipRankSum, List.dedup]

/-- C7: evaluator precondition check.  `model_evaluate` fails with the
assertion error (embedded as `none`) if and only if the row count of the
recommendation matrix differs from the number of holdout records; when
they are equal it returns the three metrics. -/
theorem recsys_C7 (recommended_items : List (List Nat)) (holdout_items : List Nat)
    (n_items topn : Nat) :
    (model_evaluate recommended_items holdout_items n_items topn = none ↔
      recommended_items.length ≠ holdout_items.length) ∧
    ((∃ out, model_evaluate recommended_items holdout_items n_items topn = some out) ↔
      recommended_items.length = holdout_items.length) := by
  unfold model_evaluate
  split_ifs with h <;> simp [h]

/-- C8 counterexample: with a duplicated item index inside a recommendation
row, the MRR double-counts the hit and exceeds the HR, refuting
`0 ≤ mrr ≤ hr` for arbitrary recommendation matrices: on
`recommended = [[0, 0]]`, `holdout = [0]`, `n_items = 4`, `topn = 2` the
code returns `hr = 1`, `mrr = 3/2`, and `3/2 ≤ 1` is false. -/
theorem recsys_C8_counterexample :
    model_evaluate [[0, 0]] [0] 4 2 = some (1, 3/2, 1/4) ∧ ¬ ((3/2 : ℚ) ≤ 1) := by
  constructor
  · norm_num [model_evaluate, evalMasks, recipRankSum, List.dedup]
  · norm_num

/-- C8 (amended): for every recommendation matrix whose rows have no
duplicate entries among their first `topn` columns (and at least one test
user), the metrics satisfy `0 ≤ mrr ≤ hr`: each hit contributes at most
`1/1` per user. -/
theorem recsys_C8 (recommended_items : List (List Nat)) (holdout_items : List Nat)
    (n_items topn : Nat) (hr mrr cov : ℚ)
    (hU : 0 < recommended_items.length)
    (hnd : ∀ row ∈ recommended_items, (row.take topn).Nodup)
    (h : model_evaluate recommended_items holdout_items n_items topn = some (hr, mrr, cov)) :
    0 ≤ mrr ∧ mrr ≤ hr := by
  unfold model_evaluate at h
  split_ifs at h with hlen
  simp only [Option.some.injEq, Prod.mk.injEq] at h
  obtain ⟨hhr, hmrr, hcov⟩ := h
  have hUQ : (0 : ℚ) < (recommended_items.length : ℚ) := by exact_mod_cast hU
  constructor
  · rw [← hmrr]
    refine div_nonneg (List.sum_nonneg ?_) (le_of_lt hUQ)
    intro x hx
    obtain ⟨m, _, rfl⟩ := List.mem_map.mp hx
    exact recipRankSum_nonneg m 0
  · rw [← hmrr, ← hhr]
    have hrow : ∀ m ∈ evalMasks recommended_items holdout_items topn,
        recipRankSum m 0 ≤ if m.any id then (1 : ℚ) else 0 := by
      intro m hm
      obtain ⟨p, hp, rfl⟩ := List.mem_map.mp hm
      refine recipRankSum_le_indicator _ 0 ?_
      rw [count_true_map_eq]
      have hmem : p.1 ∈ recommended_items := (List.of_mem_zip hp).1
      exact List.nodup_iff_count_le_one.mp (hnd p.1 hmem) p.2
    have hsum : ((evalMasks recommended_items holdout_items topn).map
          (fun m => recipRankSum m 0)).sum ≤
        ((evalMasks recommended_items holdout_items topn).map
          (fun m => if m.any id then (1 : ℚ) else 0)).sum :=
      List.sum_le_sum hrow
    rw [filter_any_length_eq_sum]
    exact div_le_div_of_nonneg_right hsum hUQ.le

/-- C9: coverage.  The coverage component of `model_evaluate` equals the
number of distinct item indices appearing anywhere in the full
recommendation matrix (all columns: it is independent of the `topn`
argument) divided by `n_items`, and `0 ≤ cov ≤ 1` whenever every
recommended index lies within `[0, n_items)`. -/
theorem recsys_C9 (recommended_items : List (List Nat)) (holdout_items : List Nat)
    (n_items topn topn2 : Nat) (hr mrr cov hr2 mrr2 cov2 : ℚ)
    (h : model_evaluate recommended_items holdout_items n_items topn = some (hr, mrr, cov))
    (h2 : model_evaluate recommended_items holdout_items n_items topn2 = some (hr2, mrr2, cov2)) :
    cov = (recommended_items.flatten.dedup.length : ℚ) / (n_items : ℚ) ∧
    cov2 = cov ∧
    ((∀ i ∈ recommended_items.flatten, i < n_items) → 0 ≤ cov ∧ cov ≤ 1) := by
  unfold model_evaluate at h h2
  split_ifs at h h2 with hlen
  simp only [Option.some.injEq, Prod.mk.injEq] at h h2
  obtain ⟨-, -, hcov⟩ := h
  obtain ⟨-, -, hcov2⟩ := h2
  refine ⟨hcov.symm, by rw [← hcov, ← hcov2], ?_⟩
  intro hmem
  constructor
  · rw [← hcov]; positivity
  · rw [← hcov]
    rcases Nat.eq_zero_or_pos n_items with hn | hn
    · have hnil : recommended_items.flatten = [] := by
        rw [List.eq_nil_iff_forall_not_mem]
        intro x hx
        exact absurd (hmem x hx) (by omega)
      simp [hnil]
    · have hsub : recommended_items.flatten.dedup ⊆ List.range n_items := by
        intro x hx
        exact List.mem_range.mpr (hmem x (List.mem_dedup.mp hx))
      have hle : recommended_items.flatten.dedup.length ≤ n_items := by
        have := ((List.nodup_dedup recommended_items.flatten).subperm hsub).length_le
        simpa using this
      rw [div_le_one (by exact_mod_cast hn)]
      exact_mod_cast hle

/-- Admissibility of the concrete selection `topidx exRow 1 = [1]`. -/
lemma exRow_spec : TopidxSpec exRow 1 [1] :=
  topidx_satisfies_spec exRow 1 [1] (le_refl 1) (by norm_num [exRow])
    (by norm_num [topidx, pySliceFrom, argsortAsc, List.insertionSort,
      List.orderedInsert, valAt, exRow, List.range_succ])

theorem recsys_C2_witness :
    (∀ row ∈ exScores, row.length = shape1 exScores) ∧
    (∀ p ∈ exData, userRank (exData.map Prod.fst) p.1 < exScores.length ∧
      p.2 < shape1 exScores) ∧
    ((downvote_seen_items exScores exData).2 = true ∧
     (∀ p ∈ exData, entry (downvote_seen_items exScores exData).1
        (userRank (exData.map Prod.fst) p.1) p.2 = ⊥) ∧
     (∀ r c, (¬ ∃ p ∈ exData, userRank (exData.map Prod.fst) p.1 = r ∧ p.2 = c) →
       entry (downvote_seen_items exScores exData).1 r c = entry exScores r c)) :=
  ⟨by decide, by decide, recsys_C2 exScores exData (by decide) (by decide)⟩

theorem recsys_C10_witness :
    (∃ p ∈ exData2, exScores.length ≤ userRank (exData2.map Prod.fst) p.1 ∨
      shape1 exScores ≤ p.2) ∧
    downvote_seen_items exScores exData2 = (exScores, false) :=
  ⟨by decide, recsys_C10 exScores exData2 (by decide)⟩

theorem recsys_C3_witness :
    1 ≤ exRow.length ∧ TopidxSpec exRow 1 [1] ∧
    (([1] : List Nat).Nodup ∧ ([1] : List Nat).length = 1 ∧
      (([1] : List Nat).map (valAt exRow)).Perm
        ((exRow.insertionSort fun x y => y ≤ x).take 1)) :=
  ⟨by norm_num [exRow], exRow_spec,
   recsys_C3 exRow 1 [1] (le_refl 1) (by norm_num [exRow]) exRow_spec⟩

theorem recsys_C4_witness :
    1 ≤ exRow.length ∧ TopidxSpec exRow 1 [1] ∧
    (([1] : List Nat).length = 1 ∧ (∀ i ∈ ([1] : List Nat), i < exRow.length) ∧
      ([1] : List Nat).Sorted fun i j => valAt exRow j ≤ valAt exRow i) :=
  ⟨by norm_num [exRow], exRow_spec,
   recsys_C4 exRow 1 [1] (le_refl 1) (by norm_num [exRow]) exRow_spec⟩

theorem recsys_C5_witness :
    1 ≤ exRow.length ∧ TopidxSpec exRow 1 [1] ∧
    ([1] : List Nat).map (valAt exRow) = ([1] : List Nat).map (valAt exRow) :=
  ⟨by norm_num [exRow], exRow_spec,
   recsys_C5 exRow 1 [1] [1] (le_refl 1) (by norm_num [exRow]) exRow_spec exRow_spec⟩

theorem recsys_C6_witness :
    1 ≤ exRow.length ∧
    (((1 - (exRow.length : Int) ≤ 2 ∧ (2 : Int) ≤ (exRow.length : Int)) →
        (topidx exRow 2).isSome) ∧
     (∀ r, topidx exRow (exRow.length : Int) = some r →
        r.Perm (List.range exRow.length) ∧
          r.Sorted fun i j => valAt exRow j ≤ valAt exRow i) ∧
     ((exRow.length : Int) < 2 → topidx exRow 2 = none)) :=
  ⟨by norm_num [exRow], recsys_C6 exRow 2 (by norm_num [exRow])⟩

theorem recsys_C8_witness :
    0 < ([[1, 2]] : List (List Nat)).length ∧
    (∀ row ∈ ([[1, 2]] : List (List Nat)), (row.take 2).Nodup) ∧
    model_evaluate [[1, 2]] [1] 4 2 = some (1, 1, 1/2) ∧
    (0 ≤ (1 : ℚ) ∧ (1 : ℚ) ≤ 1) := by
  have h : model_evaluate [[1, 2]] [1] 4 2 = some (1, 1, 1/2) := by
    norm_num [model_evaluate, evalMasks, recipRankSum, List.dedup]
  exact ⟨by decide, by decide, h,
    recsys_C8 [[1, 2]] [1] 4 2 1 1 (1/2) (by decide) (by decide) h⟩

theorem recsys_C9_witness :
    model_evaluate [[1, 2], [2, 0]] [1, 0] 4 2 = some (1, 3/4, 3/4) ∧
    model_evaluate [[1, 2], [2, 0]] [1, 0] 4 3 = some (1, 3/4, 3/4) ∧
    ((3/4 : ℚ) = (([[1, 2], [2, 0]] : List (List Nat)).flatten.dedup.length : ℚ) /
        (4 : ℚ) ∧
     (3/4 : ℚ) = (3/4 : ℚ) ∧
     ((∀ i ∈ ([[1, 2], [2, 0]] : List (List Nat)).flatten, i < 4) →
       0 ≤ (3/4 : ℚ) ∧ (3/4 : ℚ) ≤ 1)) := by
  have h : model_evaluate [[1, 2], [2, 0]] [1, 0] 4 2 = some (1, 3/4, 3/4) := by
    norm_num [model_evaluate, evalMasks, recipRankSum, List.dedup]
  have h2 : model_evaluate [[1, 2], [2, 0]] [1, 0] 4 3 = some (1, 3/4, 3/4) := by
    norm_num [model_evaluate, evalMasks, recipRankSum, List.dedup]
  exact ⟨h, h2, recsys_C9 [[1, 2], [2, 0]] [1, 0] 4 2 3 1 (3/4) (3/4) 1 (3/4) (3/4) h h2⟩

end RecSysEval
